import Mathlib

/-!
Shallow embedding of the diagnostic case-aggregation and deduplicated
dual-sink reporting engine of `src/out/extension.js` (the VS Code client of
the xss-analysis repository), together with theorems settling the frozen
claims about it.

Conventions of the embedding:
* a document's text is a `List String` of its lines (`doc.lineAt i` is
  `lines.getD i ""`, `doc.lineCount` is `lines.length`);
* timestamps are natural-number milliseconds; the single millisecond value
  `now` stands for `Date.now()` during one render pass;
* JavaScript string comparison (the default `Array.sort` comparator) is
  modelled by Lean's lexicographic order on `String`, which agrees with the
  UTF-16 code-unit order on the basic multilingual plane;
* `Number.prototype.toFixed(2)` is modelled by exact decimal rounding
  (half up) of the millisecond count to centiseconds; IEEE-754 artifacts on
  tie inputs are outside the scope of the claims;
* the rejection of the `async` function on a failed document fetch
  (`vscode.workspace.openTextDocument`) is modelled by `Option`: a `none`
  fetch aborts the remaining documents of the batch, as the uncaught
  exception does in the source.
-/

/-- A zero-based position, as in `vscode.Position`. -/
structure Pos where
  line : Nat
  character : Nat
deriving DecidableEq, Repr

/-- A range, as in `vscode.Range` (`diag.range.start`, `diag.range.end`). -/
structure Range where
  start : Pos
  «end» : Pos
deriving DecidableEq, Repr

/-- A diagnostic, as consumed by `reportXssDiagnostics`. -/
structure Diagnostic where
  range : Range
  message : String
  source : String
deriving DecidableEq, Repr

/-- A case record pushed by `extractCases`. -/
structure Case where
  id : Nat
  startLine : Nat
  endLine : Nat
deriving DecidableEq, Repr

/-- The character class `\s` of JavaScript regular expressions (restricted to
characters that can occur in a document line; `\n` cannot, but is kept for
completeness). -/
def isSpaceJs (c : Char) : Bool :=
  c = ' ' || c = '\t' || c = '\n' || c = Char.ofNat 11 || c = Char.ofNat 12 ||
  c = '\r' || c = Char.ofNat 0xA0 || c = Char.ofNat 0x1680 ||
  (0x2000 ≤ c.toNat && c.toNat ≤ 0x200A) || c = Char.ofNat 0x2028 ||
  c = Char.ofNat 0x2029 || c = Char.ofNat 0x202F || c = Char.ofNat 0x205F ||
  c = Char.ofNat 0x3000 || c = Char.ofNat 0xFEFF

/-- The character class `\d`. -/
def isDigitJs (c : Char) : Bool := '0' ≤ c && c ≤ '9'

/-- The character class `\w` (ASCII letters, digits, underscore), which the
word-boundary assertion `\b` is defined from. -/
def isWordJs (c : Char) : Bool :=
  ('a' ≤ c && c ≤ 'z') || ('A' ≤ c && c ≤ 'Z') || isDigitJs c || c = '_'

/-- Decimal digit character. -/
def digitChar (n : Nat) : Char := Char.ofNat (48 + n)

/-- Fuel-driven decimal rendering accumulator (structural recursion so that
concrete evaluations reduce in the kernel). -/
def natStrAux : Nat → Nat → List Char → List Char
  | 0, _, acc => acc
  | fuel + 1, n, acc =>
      if n < 10 then digitChar n :: acc
      else natStrAux fuel (n / 10) (digitChar (n % 10) :: acc)

/-- Decimal rendering of a natural number, as JavaScript number-to-string
conversion produces for the integers occurring here. -/
def natStr (n : Nat) : String := ⟨natStrAux (n + 1) n []⟩

/-- Accumulate the decimal value of a digit run (`Number(match[1])`). -/
def digitsToNat (cs : List Char) : Nat :=
  cs.foldl (fun acc c => acc * 10 + (c.toNat - 48)) 0

/-- Match the literal token `CASE` case-insensitively at the head of the
character list, returning the remainder. -/
def matchCaseTok : List Char → Option (List Char)
  | c1 :: c2 :: c3 :: c4 :: rest =>
      if (c1 = 'C' || c1 = 'c') && (c2 = 'A' || c2 = 'a') &&
         (c3 = 'S' || c3 = 's') && (c4 = 'E' || c4 = 'e') then some rest
      else none
  | _ => none

/-- The marker test of `extractCases`: the regular expression
`/^\s*#\s*CASE\s*(\d+)\b/i` applied to one line, returning the numeric id on
a match. Because `\d+` is greedy and any shorter digit run would place the
boundary between two word characters, `\d+\b` succeeds exactly when the
maximal digit run is followed by a non-word character or the end of input. -/
def markerData (cs0 : List Char) : Option Nat :=
  match (cs0.dropWhile isSpaceJs) with
  | [] => none
  | c :: cs1 =>
    if c = '#' then
      match matchCaseTok (cs1.dropWhile isSpaceJs) with
      | none => none
      | some cs2 =>
        let cs3 := cs2.dropWhile isSpaceJs
        let ds := cs3.takeWhile isDigitJs
        if ds.isEmpty then none
        else
          match cs3.dropWhile isDigitJs with
          | [] => some (digitsToNat ds)
          | c2 :: _ => if isWordJs c2 then none else some (digitsToNat ds)
    else none

/-- `text.match(/^\s*#\s*CASE\s*(\d+)\b/i)` as an optional case id. -/
def markerId (line : String) : Option Nat := markerData line.data

/-- The scanning loop of `extractCases`: line index and id of every marker
line, in document order (`i` is the index of the first line of `lines`). -/
def scanFrom (i : Nat) : List String → List (Nat × Nat)
  | [] => []
  | l :: rest =>
    match markerId l with
    | some id => (id, i) :: scanFrom (i + 1) rest
    | none => scanFrom (i + 1) rest

/-- The fix-up loop of `extractCases`: every case but the last ends one line
before the next case starts; the last case ends at the document's last line
(`n` is the line count). -/
def fixEnds : List (Nat × Nat) → Nat → List Case
  | [], _ => []
  | [(id, s)], n => [⟨id, s, n - 1⟩]
  | (id, s) :: (id2, s2) :: rest, n =>
      ⟨id, s, s2 - 1⟩ :: fixEnds ((id2, s2) :: rest) n

/-- `extractCases(doc)` of the source: scan for markers, then fix up the end
lines. -/
def extractCases (lines : List String) : List Case :=
  fixEnds (scanFrom 0 lines) lines.length

/-- `caseHasIssue(diagnostics, caseRange)` of the source: some diagnostic
starts within the case's line range. -/
def caseHasIssue (diagnostics : List Diagnostic) (caseRange : Case) : Bool :=
  diagnostics.any fun diag =>
    caseRange.startLine ≤ diag.range.start.line &&
    diag.range.start.line ≤ caseRange.endLine

/-- `array.join("|")`. -/
def joinBar : List String → String
  | [] => ""
  | [a] => a
  | a :: b :: rest => a ++ "|" ++ joinBar (b :: rest)

/-- Lexicographic comparison of character lists by code point, the order the
default `Array.sort` comparator induces on strings (identical to the UTF-16
code-unit order on the basic multilingual plane). -/
def charListLe : List Char → List Char → Bool
  | [], _ => true
  | _ :: _, [] => false
  | a :: as, b :: bs =>
      if a.toNat < b.toNat then true
      else if b.toNat < a.toNat then false
      else charListLe as bs

/-- String comparison used by the fingerprint sort. -/
def strLe (a b : String) : Bool := charListLe a.data b.data

/-- Ordered insertion for lexicographically sorting a string array. -/
def insertSorted (s : String) : List String → List String
  | [] => [s]
  | t :: rest => if strLe s t then s :: t :: rest else t :: insertSorted s rest

/-- `array.sort()` on strings: the lexicographically sorted permutation
(unique for a total order, so the choice of algorithm is immaterial). -/
def sortStrings : List String → List String
  | [] => []
  | s :: rest => insertSorted s (sortStrings rest)

/-- The per-diagnostic fragment of the flat-mode fingerprint:
`start.line:start.character:end.line:end.character:message`. -/
def renderDiag (diag : Diagnostic) : String :=
  natStr diag.range.start.line ++ ":" ++ natStr diag.range.start.character ++ ":" ++
  natStr diag.range.«end».line ++ ":" ++ natStr diag.range.«end».character ++ ":" ++
  diag.message

/-- The flat-mode fingerprint: rendered diagnostics, sorted, joined by `|`. -/
def flatFingerprint (diagnostics : List Diagnostic) : String :=
  joinBar (sortStrings (diagnostics.map renderDiag))

/-- The case-mode report key: `id:1` for a case with an issue, `id:0`
otherwise, over the extracted cases in order, joined by `|`. -/
def reportKeyOf (lines : List String) (diagnostics : List Diagnostic) : String :=
  joinBar ((extractCases lines).map fun c =>
    natStr c.id ++ ":" ++ (if caseHasIssue diagnostics c then "1" else "0"))

/-- Render a natural number below 100 with two digits. -/
def pad2 (n : Nat) : String := if n < 10 then "0" ++ natStr n else natStr n

/-- `(ms / 1000).toFixed(2)` for a non-negative integer millisecond count:
exact decimal rounding (half up) to centiseconds, rendered with two decimal
places. -/
def fmtElapsed (ms : Nat) : String :=
  let cs := (ms + 5) / 10
  natStr (cs / 100) ++ "." ++ pad2 (cs % 100)

/-- The status word written for a case: the success label when the matcher
found an issue, the failure label otherwise (line 129 of the source). -/
def statusLabel (ok : Bool) : String := if ok then "성공" else "실패"

/-- One rendered case line:
`### ${c.id}번 케이스 -> ${status} ${elapsedSec.toFixed(2)}s`. -/
def caseLine (id : Nat) (ok : Bool) (fmt : String) : String :=
  "### " ++ natStr id ++ "번 케이스 -> " ++ statusLabel ok ++ " " ++ fmt ++ "s"

/-- Observable effects of a render pass on the two sinks. -/
inductive OutEvent where
  | outputLine (s : String)
  | termWrite (s : String)
  | showOutput
  | showTerminal
deriving DecidableEq, Repr

/-- `map.get(k)` on an association list. -/
def mapGet {α : Type} (m : List (String × α)) (k : String) : Option α :=
  match m with
  | [] => none
  | (k2, v) :: rest => if k2 = k then some v else mapGet rest k

/-- `map.set(k, v)` on an association list (overwrite or append). -/
def mapSet {α : Type} (m : List (String × α)) (k : String) (v : α) :
    List (String × α) :=
  match m with
  | [] => [(k, v)]
  | (k2, v2) :: rest =>
      if k2 = k then (k, v) :: rest else (k2, v2) :: mapSet rest k v

/-- One document of a diagnostics-changed batch: its uri key, the base name
of its fs path, and the result of fetching its text and raw diagnostics
(`none` models a rejected `openTextDocument`). -/
structure DocInput where
  uriKey : String
  baseName : String
  fetched : Option (List String × List Diagnostic)
deriving DecidableEq, Repr

/-- The diagnostic filter of line 106: keep only diagnostics whose source is
`xss-lsp`. -/
def filterDiags (diagnostics : List Diagnostic) : List Diagnostic :=
  diagnostics.filter fun diag => diag.source = "xss-lsp"

/-- State threaded through the per-batch loop of `reportXssDiagnostics`:
the `lastReports` map, the two once-per-batch reveal flags, and the events
emitted so far. -/
structure LoopState where
  reports : List (String × String)
  shown : Bool
  terminalShown : Bool
  events : List OutEvent
deriving DecidableEq, Repr

/-- The case-mode event block: one line per case to each sink, the terminal
copy with an explicit CRLF. -/
def caseEvents (cases : List Case) (diagnostics : List Diagnostic)
    (fmt : String) : List OutEvent :=
  cases.flatMap fun c =>
    let line := caseLine c.id (caseHasIssue diagnostics c) fmt
    [OutEvent.outputLine line, OutEvent.termWrite (line ++ "\r\n")]

/-- The flat-mode event block: for each diagnostic, in the host-supplied
order, a locator line and the source line at the diagnostic's start. -/
def flatEvents (baseName : String) (lines : List String)
    (diagnostics : List Diagnostic) : List OutEvent :=
  diagnostics.flatMap fun diag =>
    [OutEvent.outputLine
      ("[XSS] " ++ baseName ++ ":" ++ natStr (diag.range.start.line + 1) ++ ":" ++
        natStr (diag.range.start.character + 1) ++ " " ++ diag.message),
     OutEvent.outputLine (lines.getD diag.range.start.line "")]

/-- The body of the per-document loop of `reportXssDiagnostics` for one
document. Returns `none` when the fetch fails (the uncaught rejection that
aborts the batch); otherwise the updated loop state. -/
def processDoc (now : Nat) (lastChangeAt : List (String × Nat))
    (ls : LoopState) (d : DocInput) : Option LoopState :=
  match d.fetched with
  | none => none
  | some (lines, rawDiags) =>
    let diagnostics := filterDiags rawDiags
    let cases := extractCases lines
    if cases.length > 0 then
      let elapsedMs : Int := (now : Int) -
        (((mapGet lastChangeAt d.uriKey).getD now : Nat) : Int)
      let fmt := fmtElapsed (max 0 elapsedMs).toNat
      let reportKey := reportKeyOf lines diagnostics
      if some reportKey = mapGet ls.reports d.uriKey then some ls
      else
        let showEv1 : List OutEvent := if ls.shown then [] else [.showOutput]
        let showEv2 : List OutEvent :=
          if ls.terminalShown then [] else [.showTerminal]
        some { reports := mapSet ls.reports d.uriKey reportKey
               shown := true
               terminalShown := true
               events := ls.events ++ showEv1 ++ showEv2 ++
                 caseEvents cases diagnostics fmt }
    else
      if diagnostics.length = 0 then some ls
      else
        let fingerprint := flatFingerprint diagnostics
        if some fingerprint = mapGet ls.reports d.uriKey then some ls
        else
          let showEv1 : List OutEvent := if ls.shown then [] else [.showOutput]
          some { reports := mapSet ls.reports d.uriKey fingerprint
                 shown := true
                 terminalShown := ls.terminalShown
                 events := ls.events ++ showEv1 ++
                   flatEvents d.baseName lines diagnostics }

/-- The batch loop: documents in order, aborting (with the effects produced
so far) at the first fetch failure. -/
def runBatch (now : Nat) (lastChangeAt : List (String × Nat))
    (ls : LoopState) : List DocInput → LoopState
  | [] => ls
  | d :: rest =>
    match processDoc now lastChangeAt ls d with
    | none => ls
    | some ls2 => runBatch now lastChangeAt ls2 rest

/-- `reportXssDiagnostics(uris)`: process the batch starting from a fresh
per-batch loop state, returning the final `lastReports` map and the emitted
events. -/
def reportXssDiagnostics (now : Nat) (lastChangeAt : List (String × Nat))
    (reports : List (String × String)) (docs : List DocInput) :
    List (String × String) × List OutEvent :=
  let ls := runBatch now lastChangeAt
    ⟨reports, false, false, []⟩ docs
  (ls.reports, ls.events)

/-- The elapsed milliseconds of a render pass as the specification words
them: `max(0, now - lastChangeAt[doc])`, treating a never-recorded document
as just changed. -/
def elapsedSpec (now : Nat) (lastChangeAt : List (String × Nat))
    (uri : String) : Nat :=
  (max 0 ((now : Int) - (((mapGet lastChangeAt uri).getD now : Nat) : Int))).toNat

/-- The first non-whitespace character of a line, if any. -/
def firstNonSpace (line : String) : Option Char :=
  (line.data.dropWhile isSpaceJs).head?

/-! ### Order lemmas for the fingerprint comparator -/

theorem charListLe_total : ∀ as bs : List Char,
    charListLe as bs = true ∨ charListLe bs as = true
  | [], _ => Or.inl rfl
  | _ :: _, [] => Or.inr rfl
  | a :: as, b :: bs => by
    by_cases h1 : a.toNat < b.toNat
    · left
      simp [charListLe, h1]
    · by_cases h2 : b.toNat < a.toNat
      · right
        simp [charListLe, h2]
      · rcases charListLe_total as bs with h | h
        · left
          simp [charListLe, h1, h2, h]
        · right
          simp [charListLe, h1, h2, h]

theorem charListLe_antisymm : ∀ as bs : List Char,
    charListLe as bs = true → charListLe bs as = true → as = bs
  | [], [], _, _ => rfl
  | [], _ :: _, _, h2 => by simp [charListLe] at h2
  | _ :: _, [], h1, _ => by simp [charListLe] at h1
  | a :: as, b :: bs, h1, h2 => by
    by_cases hab : a.toNat < b.toNat
    · simp [charListLe, hab, Nat.lt_asymm hab] at h2
    · by_cases hba : b.toNat < a.toNat
      · simp [charListLe, hab, hba] at h1
      · have hN : a.toNat = b.toNat := by omega
        have hEq : a = b := Char.eq_of_val_eq (UInt32.ext hN)
        simp only [charListLe, if_neg hab, if_neg hba] at h1 h2
        rw [hEq, charListLe_antisymm as bs h1 h2]

theorem charListLe_trans : ∀ as bs cs : List Char,
    charListLe as bs = true → charListLe bs cs = true →
    charListLe as cs = true
  | [], _, _, _, _ => rfl
  | _ :: _, [], _, h1, _ => by simp [charListLe] at h1
  | _ :: _, _ :: _, [], _, h2 => by simp [charListLe] at h2
  | a :: as, b :: bs, c :: cs, h1, h2 => by
    by_cases hab : a.toNat < b.toNat <;> by_cases hbc : b.toNat < c.toNat
    · simp [charListLe, Nat.lt_trans hab hbc]
    · by_cases hcb : c.toNat < b.toNat
      · simp [charListLe, hbc, hcb] at h2
      · have hac : a.toNat < c.toNat := by omega
        simp [charListLe, hac]
    · by_cases hba : b.toNat < a.toNat
      · simp [charListLe, hab, hba] at h1
      · have hac : a.toNat < c.toNat := by omega
        simp [charListLe, hac]
    · by_cases hba : b.toNat < a.toNat
      · simp [charListLe, hab, hba] at h1
      · by_cases hcb : c.toNat < b.toNat
        · simp [charListLe, hbc, hcb] at h2
        · have hac1 : ¬ a.toNat < c.toNat := by omega
          have hac2 : ¬ c.toNat < a.toNat := by omega
          simp only [charListLe, if_neg hab, if_neg hba] at h1
          simp only [charListLe, if_neg hbc, if_neg hcb] at h2
          simp only [charListLe, if_neg hac1, if_neg hac2]
          exact charListLe_trans as bs cs h1 h2

theorem strLe_total (a b : String) : strLe a b = true ∨ strLe b a = true :=
  charListLe_total a.data b.data

theorem strLe_antisymm {a b : String} (h1 : strLe a b = true)
    (h2 : strLe b a = true) : a = b :=
  String.ext_iff.mpr (charListLe_antisymm a.data b.data h1 h2)

theorem strLe_trans {a b c : String} (h1 : strLe a b = true)
    (h2 : strLe b c = true) : strLe a c = true :=
  charListLe_trans a.data b.data c.data h1 h2

/-! ### Sorting lemmas -/

theorem insertSorted_perm (s : String) (l : List String) :
    (insertSorted s l).Perm (s :: l) := by
  induction l with
  | nil => exact List.Perm.refl _
  | cons t rest ih =>
    simp only [insertSorted]
    split
    · exact List.Perm.refl _
    · exact (ih.cons t).trans (List.Perm.swap s t rest)

theorem sortStrings_perm (l : List String) : (sortStrings l).Perm l := by
  induction l with
  | nil => exact List.Perm.refl _
  | cons s rest ih =>
    exact (insertSorted_perm s (sortStrings rest)).trans (ih.cons s)

theorem sorted_insertSorted (s : String) (l : List String)
    (h : l.Sorted (fun a b => strLe a b = true)) :
    (insertSorted s l).Sorted (fun a b => strLe a b = true) := by
  induction l with
  | nil => simp [insertSorted]
  | cons t rest ih =>
    rw [List.sorted_cons] at h
    simp only [insertSorted]
    split
    · rename_i hle
      rw [List.sorted_cons]
      refine ⟨?_, List.sorted_cons.mpr h⟩
      intro b hb
      rcases List.mem_cons.mp hb with rfl | hb2
      · exact hle
      · exact strLe_trans hle (h.1 b hb2)
    · rename_i hnle
      rw [List.sorted_cons]
      refine ⟨?_, ih h.2⟩
      intro b hb
      have hb3 := (insertSorted_perm s rest).mem_iff.mp hb
      rcases List.mem_cons.mp hb3 with rfl | hb4
      · rcases strLe_total t b with hx | hx
        · exact hx
        · exact absurd hx hnle
      · exact h.1 b hb4

theorem sorted_sortStrings (l : List String) :
    (sortStrings l).Sorted (fun a b => strLe a b = true) := by
  induction l with
  | nil => simp [sortStrings]
  | cons s rest ih => exact sorted_insertSorted s _ ih

theorem sortStrings_eq_of_perm {l l2 : List String} (h : l.Perm l2) :
    sortStrings l = sortStrings l2 := by
  haveI : IsAntisymm String (fun a b => strLe a b = true) :=
    ⟨fun _ _ h1 h2 => strLe_antisymm h1 h2⟩
  exact List.eq_of_perm_of_sorted
    ((sortStrings_perm l).trans (h.trans (sortStrings_perm l2).symm))
    (sorted_sortStrings l) (sorted_sortStrings l2)

/-! ### Join-with-separator lemmas -/

theorem string_data_append (a b : String) :
    (a ++ b).data = a.data ++ b.data := by
  cases a; cases b; rfl

theorem joinBar_cons_cons_data (a b : String) (t : List String) :
    (joinBar (a :: b :: t)).data = a.data ++ '|' :: (joinBar (b :: t)).data := by
  show (a ++ "|" ++ joinBar (b :: t)).data = _
  rw [string_data_append, string_data_append]
  simp

theorem pipe_head_eq {u : List Char} : ∀ {v x y : List Char}, '|' ∉ u → '|' ∉ v →
    u ++ '|' :: x = v ++ '|' :: y → u = v ∧ x = y := by
  induction u with
  | nil =>
    intro v x y _ hv h
    cases v with
    | nil => simpa using h
    | cons c vs =>
      simp only [List.nil_append, List.cons_append, List.cons.injEq] at h
      exact absurd (by rw [← h.1] at hv ⊢; exact List.mem_cons_self _ _) hv
  | cons a us ih =>
    intro v x y hu hv h
    cases v with
    | nil =>
      simp only [List.cons_append, List.nil_append, List.cons.injEq] at h
      exact absurd (by rw [h.1] at hu ⊢; exact List.mem_cons_self _ _) hu
    | cons b vs =>
      simp only [List.cons_append, List.cons.injEq] at h
      obtain ⟨h1, h2⟩ := h
      have hu2 : '|' ∉ us := fun hm => hu (List.mem_cons_of_mem _ hm)
      have hv2 : '|' ∉ vs := fun hm => hv (List.mem_cons_of_mem _ hm)
      obtain ⟨e1, e2⟩ := ih hu2 hv2 h2
      exact ⟨by rw [h1, e1], e2⟩

theorem joinBar_inj (l1 : List String) : ∀ (l2 : List String),
    (∀ s ∈ l1, '|' ∉ s.data) → (∀ s ∈ l2, '|' ∉ s.data) →
    l1 ≠ [] → l2 ≠ [] → joinBar l1 = joinBar l2 → l1 = l2 := by
  induction l1 with
  | nil => intro l2 _ _ h _ _; exact absurd rfl h
  | cons a r1 ih =>
    intro l2 h1 h2 _ hne2 heq
    cases l2 with
    | nil => exact absurd rfl hne2
    | cons c r2 =>
      cases r1 with
      | nil =>
        cases r2 with
        | nil =>
          have : a = c := heq
          rw [this]
        | cons d r2t =>
          have hdata : a.data = c.data ++ '|' :: (joinBar (d :: r2t)).data := by
            rw [← joinBar_cons_cons_data]
            exact congrArg String.data heq
          have : '|' ∈ a.data := by
            rw [hdata]
            exact List.mem_append_right _ (List.mem_cons_self _ _)
          exact absurd this (h1 a (List.mem_cons_self _ _))
      | cons b r1t =>
        cases r2 with
        | nil =>
          have hdata : c.data = a.data ++ '|' :: (joinBar (b :: r1t)).data := by
            rw [← joinBar_cons_cons_data]
            exact (congrArg String.data heq).symm
          have : '|' ∈ c.data := by
            rw [hdata]
            exact List.mem_append_right _ (List.mem_cons_self _ _)
          exact absurd this (h2 c (List.mem_cons_self _ _))
        | cons d r2t =>
          have hdata : a.data ++ '|' :: (joinBar (b :: r1t)).data =
              c.data ++ '|' :: (joinBar (d :: r2t)).data := by
            rw [← joinBar_cons_cons_data, ← joinBar_cons_cons_data]
            exact congrArg String.data heq
          obtain ⟨e1, e2⟩ := pipe_head_eq (h1 a (List.mem_cons_self _ _))
            (h2 c (List.mem_cons_self _ _)) hdata
          have hac : a = c := String.ext_iff.mpr e1
          have htail : (b :: r1t) = (d :: r2t) := by
            refine ih (d :: r2t) ?_ ?_ (by simp) (by simp)
              (String.ext_iff.mpr e2)
            · intro s hs; exact h1 s (List.mem_cons_of_mem _ hs)
            · intro s hs; exact h2 s (List.mem_cons_of_mem _ hs)
          rw [hac, htail]

/-! ### Decimal rendering lemmas -/

theorem natStrAux_avoid (ch : Char) (hch : ∀ m, m < 10 → digitChar m ≠ ch) :
    ∀ (fuel n : Nat) (acc : List Char), ch ∉ acc → ch ∉ natStrAux fuel n acc := by
  intro fuel
  induction fuel with
  | zero => intro n acc h; simpa [natStrAux] using h
  | succ f ih =>
    intro n acc h
    simp only [natStrAux]
    split
    · rename_i hn
      simp only [List.mem_cons, not_or]
      exact ⟨fun e => hch n hn e.symm, h⟩
    · refine ih (n / 10) _ ?_
      simp only [List.mem_cons, not_or]
      exact ⟨fun e => hch (n % 10) (Nat.mod_lt _ (by norm_num)) e.symm, h⟩

theorem natStr_no_pipe (n : Nat) : '|' ∉ (natStr n).data :=
  natStrAux_avoid '|' (by decide) (n + 1) n [] (by simp)

theorem renderDiag_no_pipe (d : Diagnostic) (h : '|' ∉ d.message.data) :
    '|' ∉ (renderDiag d).data := by
  intro hm
  unfold renderDiag at hm
  simp only [string_data_append, List.mem_append] at hm
  rcases hm with ((((((((h1 | h2) | h3) | h4) | h5) | h6) | h7) | h8) | h9)
  · exact natStr_no_pipe _ h1
  · exact absurd h2 (by decide)
  · exact natStr_no_pipe _ h3
  · exact absurd h4 (by decide)
  · exact natStr_no_pipe _ h5
  · exact absurd h6 (by decide)
  · exact natStr_no_pipe _ h7
  · exact absurd h8 (by decide)
  · exact h h9

theorem renderDiag_message_eq {d d2 : Diagnostic} (hr : d.range = d2.range)
    (h : renderDiag d = renderDiag d2) : d.message = d2.message := by
  unfold renderDiag at h
  rw [hr] at h
  have hdata := congrArg String.data h
  simp only [string_data_append] at hdata
  have := List.append_cancel_left hdata
  exact String.ext_iff.mpr this

/-! ### Association-list lemmas -/

theorem mapGet_mapSet_self {α : Type} (m : List (String × α)) (k : String)
    (v : α) : mapGet (mapSet m k v) k = some v := by
  induction m with
  | nil => simp [mapSet, mapGet]
  | cons p rest ih =>
    obtain ⟨k2, v2⟩ := p
    simp only [mapSet]
    split
    · simp [mapGet]
    · rename_i hne
      simpa [mapGet, hne] using ih

/-! ### Case-extraction structure lemmas -/

theorem scanFrom_snd_bounds (ls : List String) : ∀ (i : Nat) (p : Nat × Nat),
    p ∈ scanFrom i ls → i ≤ p.2 ∧ p.2 < i + ls.length := by
  induction ls with
  | nil => intro i p h; simp [scanFrom] at h
  | cons l rest ih =>
    intro i p h
    simp only [List.length_cons]
    cases hm : markerId l with
    | some id =>
      simp only [scanFrom, hm] at h
      rcases List.mem_cons.mp h with rfl | h2
      · show i ≤ i ∧ i < i + (rest.length + 1)
        omega
      · have := ih (i + 1) p h2
        omega
    | none =>
      simp only [scanFrom, hm] at h
      have := ih (i + 1) p h
      omega

theorem scanFrom_pairwise (ls : List String) : ∀ i : Nat,
    (scanFrom i ls).Pairwise (fun a b => a.2 < b.2) := by
  induction ls with
  | nil => intro i; simp [scanFrom]
  | cons l rest ih =>
    intro i
    cases hm : markerId l with
    | some id =>
      simp only [scanFrom, hm]
      refine List.Pairwise.cons ?_ (ih (i + 1))
      intro b hb
      have := (scanFrom_snd_bounds rest (i + 1) b hb).1
      omega
    | none =>
      simp only [scanFrom, hm]
      exact ih (i + 1)

theorem fixEnds_spec : ∀ (raw : List (Nat × Nat)) (n : Nat),
    raw.Pairwise (fun a b => a.2 < b.2) → (∀ p ∈ raw, p.2 < n) →
    (fixEnds raw n).map Case.startLine = raw.map Prod.snd ∧
    (∀ c ∈ fixEnds raw n, c.startLine ≤ c.endLine) ∧
    List.Chain' (fun a b => a.endLine = b.startLine - 1) (fixEnds raw n) ∧
    (∀ c, (fixEnds raw n).getLast? = some c → c.endLine = n - 1)
  | [], n, _, _ => by simp [fixEnds]
  | [(id, s)], n, _, hb => by
    refine ⟨by simp [fixEnds], ?_, by simp [fixEnds], ?_⟩
    · intro c hc
      simp only [fixEnds, List.mem_singleton] at hc
      subst hc
      have hs : s < n := hb (id, s) (List.mem_singleton.mpr rfl)
      show s ≤ n - 1
      omega
    · intro c hc
      simp only [fixEnds, List.getLast?_singleton, Option.some.injEq] at hc
      subst hc
      rfl
  | (id1, s1) :: (id2, s2) :: rest, n, hp, hb => by
    have hp2 : ((id2, s2) :: rest).Pairwise (fun a b => a.2 < b.2) :=
      (List.pairwise_cons.mp hp).2
    have hb2 : ∀ p ∈ (id2, s2) :: rest, p.2 < n :=
      fun p hmem => hb p (List.mem_cons_of_mem _ hmem)
    obtain ⟨ihmap, ihle, ihchain, ihlast⟩ :=
      fixEnds_spec ((id2, s2) :: rest) n hp2 hb2
    have h12 : s1 < s2 := by
      have := (List.pairwise_cons.mp hp).1 (id2, s2) (List.mem_cons_self _ _)
      simpa using this
    have hne : fixEnds ((id2, s2) :: rest) n ≠ [] := by
      intro he
      rw [he] at ihmap
      simp at ihmap
    refine ⟨?_, ?_, ?_, ?_⟩
    · show Case.startLine ⟨id1, s1, s2 - 1⟩ ::
        (fixEnds ((id2, s2) :: rest) n).map Case.startLine = _
      rw [ihmap]
      rfl
    · intro c hc
      have hc2 : c ∈ (⟨id1, s1, s2 - 1⟩ : Case) ::
          fixEnds ((id2, s2) :: rest) n := hc
      rcases List.mem_cons.mp hc2 with rfl | hc3
      · simp only
        omega
      · exact ihle c hc3
    · show List.Chain' _ ((⟨id1, s1, s2 - 1⟩ : Case) ::
        fixEnds ((id2, s2) :: rest) n)
      rw [List.chain'_cons']
      refine ⟨?_, ihchain⟩
      intro y hy
      cases hE : fixEnds ((id2, s2) :: rest) n with
      | nil => exact absurd hE hne
      | cons y0 t =>
        rw [hE] at hy ihmap
        simp only [List.head?_cons, Option.mem_def, Option.some.injEq] at hy
        simp only [List.map_cons, List.cons.injEq] at ihmap
        show (⟨id1, s1, s2 - 1⟩ : Case).endLine = y.startLine - 1
        rw [← hy, ihmap.1]
    · intro c hc
      cases hE : fixEnds ((id2, s2) :: rest) n with
      | nil => exact absurd hE hne
      | cons y0 t =>
        apply ihlast c
        rw [hE]
        have hfix : fixEnds ((id1, s1) :: (id2, s2) :: rest) n =
            (⟨id1, s1, s2 - 1⟩ : Case) :: y0 :: t := by
          show (⟨id1, s1, s2 - 1⟩ : Case) :: fixEnds ((id2, s2) :: rest) n = _
          rw [hE]
        rw [hfix, List.getLast?_cons_cons] at hc
        exact hc

theorem extractCases_spec (lines : List String) :
    (∀ c ∈ extractCases lines, c.startLine ≤ c.endLine) ∧
    List.Chain' (fun a b => a.endLine = b.startLine - 1) (extractCases lines) ∧
    (∀ c, (extractCases lines).getLast? = some c →
      c.endLine = lines.length - 1) ∧
    List.Chain' (fun a b => a.startLine < b.startLine) (extractCases lines) := by
  have hb : ∀ p ∈ scanFrom 0 lines, p.2 < lines.length := by
    intro p h
    have := scanFrom_snd_bounds lines 0 p h
    omega
  obtain ⟨hmap, hle, hchain, hlast⟩ :=
    fixEnds_spec (scanFrom 0 lines) lines.length (scanFrom_pairwise lines 0) hb
  refine ⟨hle, hchain, hlast, ?_⟩
  apply List.Pairwise.chain'
  rw [← List.pairwise_map (f := Case.startLine)]
  show ((fixEnds (scanFrom 0 lines) lines.length).map Case.startLine).Pairwise
    (· < ·)
  rw [hmap]
  rw [List.pairwise_map]
  exact scanFrom_pairwise lines 0

/-! ### Single-document pass lemmas -/

theorem run_single_fail (now : Nat) (lca : List (String × Nat))
    (reports : List (String × String)) (uri base : String) :
    reportXssDiagnostics now lca reports [⟨uri, base, none⟩] =
      (reports, []) := rfl

theorem run_single_case_render (now : Nat) (lca : List (String × Nat))
    (reports : List (String × String)) (uri base : String)
    (lines : List String) (raw : List Diagnostic)
    (hcs : extractCases lines ≠ [])
    (hkey : some (reportKeyOf lines (filterDiags raw)) ≠ mapGet reports uri) :
    reportXssDiagnostics now lca reports [⟨uri, base, some (lines, raw)⟩] =
      (mapSet reports uri (reportKeyOf lines (filterDiags raw)),
       OutEvent.showOutput :: OutEvent.showTerminal ::
         caseEvents (extractCases lines) (filterDiags raw)
           (fmtElapsed (elapsedSpec now lca uri))) := by
  have hlen : 0 < (extractCases lines).length := List.length_pos.mpr hcs
  simp only [reportXssDiagnostics, runBatch, processDoc]
  rw [if_pos hlen, if_neg hkey]
  rfl

theorem run_single_case_skip (now : Nat) (lca : List (String × Nat))
    (reports : List (String × String)) (uri base : String)
    (lines : List String) (raw : List Diagnostic)
    (hcs : extractCases lines ≠ [])
    (hkey : some (reportKeyOf lines (filterDiags raw)) = mapGet reports uri) :
    reportXssDiagnostics now lca reports [⟨uri, base, some (lines, raw)⟩] =
      (reports, []) := by
  have hlen : 0 < (extractCases lines).length := List.length_pos.mpr hcs
  simp only [reportXssDiagnostics, runBatch, processDoc]
  rw [if_pos hlen, if_pos hkey]

theorem run_single_flat_empty (now : Nat) (lca : List (String × Nat))
    (reports : List (String × String)) (uri base : String)
    (lines : List String) (raw : List Diagnostic)
    (hcs : extractCases lines = []) (hd : filterDiags raw = []) :
    reportXssDiagnostics now lca reports [⟨uri, base, some (lines, raw)⟩] =
      (reports, []) := by
  have hlen : ¬ 0 < (extractCases lines).length := by
    rw [hcs]; simp
  have hdl : (filterDiags raw).length = 0 := by rw [hd]; rfl
  simp only [reportXssDiagnostics, runBatch, processDoc]
  rw [if_neg hlen, if_pos hdl]

theorem run_single_flat_skip (now : Nat) (lca : List (String × Nat))
    (reports : List (String × String)) (uri base : String)
    (lines : List String) (raw : List Diagnostic)
    (hcs : extractCases lines = []) (hd : filterDiags raw ≠ [])
    (hkey : some (flatFingerprint (filterDiags raw)) = mapGet reports uri) :
    reportXssDiagnostics now lca reports [⟨uri, base, some (lines, raw)⟩] =
      (reports, []) := by
  have hlen : ¬ 0 < (extractCases lines).length := by
    rw [hcs]; simp
  have hdl : ¬ (filterDiags raw).length = 0 := by
    simpa [List.length_eq_zero] using hd
  simp only [reportXssDiagnostics, runBatch, processDoc]
  rw [if_neg hlen, if_neg hdl, if_pos hkey]

theorem run_single_flat_render (now : Nat) (lca : List (String × Nat))
    (reports : List (String × String)) (uri base : String)
    (lines : List String) (raw : List Diagnostic)
    (hcs : extractCases lines = []) (hd : filterDiags raw ≠ [])
    (hkey : some (flatFingerprint (filterDiags raw)) ≠ mapGet reports uri) :
    reportXssDiagnostics now lca reports [⟨uri, base, some (lines, raw)⟩] =
      (mapSet reports uri (flatFingerprint (filterDiags raw)),
       OutEvent.showOutput :: flatEvents base lines (filterDiags raw)) := by
  have hlen : ¬ 0 < (extractCases lines).length := by
    rw [hcs]; simp
  have hdl : ¬ (filterDiags raw).length = 0 := by
    simpa [List.length_eq_zero] using hd
  simp only [reportXssDiagnostics, runBatch, processDoc]
  rw [if_neg hlen, if_neg hdl, if_neg hkey]
  rfl

/-! ### Batch-abort lemma -/

theorem processDoc_none_of_fetch_none (now : Nat) (lca : List (String × Nat))
    (ls : LoopState) (f : DocInput) (hf : f.fetched = none) :
    processDoc now lca ls f = none := by
  obtain ⟨u, b, fetched⟩ := f
  simp only at hf
  subst hf
  rfl

theorem runBatch_append_fail (now : Nat) (lca : List (String × Nat))
    (f : DocInput) (hf : f.fetched = none) :
    ∀ (docs1 docs2 : List DocInput) (ls : LoopState),
    runBatch now lca ls (docs1 ++ f :: docs2) =
      runBatch now lca ls (docs1 ++ [f]) := by
  intro docs1
  induction docs1 with
  | nil =>
    intro docs2 ls
    simp only [List.nil_append, runBatch]
    rw [processDoc_none_of_fetch_none now lca ls f hf]
  | cons d rest ih =>
    intro docs2 ls
    simp only [List.cons_append, runBatch]
    cases h : processDoc now lca ls d with
    | none => rfl
    | some ls2 => exact ih docs2 ls2

/-! ### Claim theorems -/

/-- C6 (confirmed): for every document text, `extractCases` returns the cases
in ascending `startLine` order, each with `startLine ≤ endLine`; the end line
of every case but the last is the next case's start line minus one, and the
last case's end line is the document's last line; markers at lines 2, 10 and
25 of a 30-line document yield the ranges `[2,9]`, `[10,24]`, `[25,29]`. -/
theorem claim_c6_case_ranges (lines : List String) :
    List.Chain' (fun a b => a.startLine < b.startLine) (extractCases lines) ∧
    (∀ c ∈ extractCases lines, c.startLine ≤ c.endLine) ∧
    List.Chain' (fun a b => a.endLine = b.startLine - 1) (extractCases lines) ∧
    (∀ c, (extractCases lines).getLast? = some c →
      c.endLine = lines.length - 1) ∧
    extractCases ((List.range 30).map fun i =>
        if i = 2 then "# CASE 1" else if i = 10 then "# CASE 2"
        else if i = 25 then "# CASE 3" else "x") =
      [⟨1, 2, 9⟩, ⟨2, 10, 24⟩, ⟨3, 25, 29⟩] := by
  obtain ⟨hle, hchain, hlast, hmono⟩ := extractCases_spec lines
  exact ⟨hmono, hle, hchain, hlast, by decide⟩

/-- Witness for C6 at a concrete four-line document with two markers. -/
theorem claim_c6_case_ranges_witness :
    (⟨1, 0, 1⟩ : Case).startLine ≤ (⟨1, 0, 1⟩ : Case).endLine ∧
    (⟨2, 2, 3⟩ : Case).endLine =
      (["# CASE 1", "x", "# CASE 2", "y"] : List String).length - 1 :=
  ⟨(claim_c6_case_ranges ["# CASE 1", "x", "# CASE 2", "y"]).2.1
      ⟨1, 0, 1⟩ (by decide),
   (claim_c6_case_ranges ["# CASE 1", "x", "# CASE 2", "y"]).2.2.2.1
      ⟨2, 2, 3⟩ (by decide)⟩

/-- Helper for C10: a successful marker match forces `#` as the first
non-whitespace character. -/
theorem markerData_head (cs : List Char) (h : (markerData cs).isSome = true) :
    (cs.dropWhile isSpaceJs).head? = some '#' := by
  cases hd : cs.dropWhile isSpaceJs with
  | nil =>
    have he : markerData cs = none := by unfold markerData; rw [hd]
    rw [he] at h
    simp at h
  | cons c rest =>
    by_cases hc : c = '#'
    · rw [List.head?_cons, hc]
    · have he : markerData cs = none := by
        unfold markerData
        rw [hd]
        exact if_neg hc
      rw [he] at h
      simp at h

/-- C10 (confirmed): a line is recognized as a case-boundary marker only when
its first non-whitespace character is `#` (other comment syntaxes are never
recognized), and the id must be a run of decimal digits ending at a word
boundary, so `# CASE 12abc` is not a marker and is treated as ordinary
content. -/
theorem claim_c10_marker_shape :
    (∀ line : String, (markerId line).isSome = true →
      firstNonSpace line = some '#') ∧
    markerId "# CASE 12abc" = none ∧
    markerId "# CASE 12" = some 12 ∧
    markerId "// CASE 3" = none ∧
    extractCases ["# CASE 12abc"] = [] := by
  refine ⟨?_, by decide, by decide, by decide, by decide⟩
  intro line h
  exact markerData_head line.data h

/-- Witness for C10 at a concrete marker line. -/
theorem claim_c10_marker_shape_witness :
    firstNonSpace "  # CASE 7" = some '#' :=
  claim_c10_marker_shape.1 "  # CASE 7" (by decide)

/-- C4 counterexample: in a batch where document `a` fails to fetch before
document `b`, document `b` produces no output, although `b` alone would
render; the failure is not contained to the failing document. -/
theorem claim_c4_counterexample :
    (reportXssDiagnostics 0 [] []
        [⟨"a", "a", none⟩, ⟨"b", "b", some (["# CASE 1"], [])⟩]).2 = [] ∧
    (reportXssDiagnostics 0 [] []
        [⟨"b", "b", some (["# CASE 1"], [])⟩]).2 ≠ [] := by decide

/-- C4 (corrected): a fetch failure for one document aborts the processing of
all remaining documents of the batch; only the documents processed before the
failure are unaffected. -/
theorem claim_c4_batch_abort (now : Nat) (lca : List (String × Nat))
    (reports : List (String × String)) (docs1 docs2 : List DocInput)
    (f : DocInput) (hf : f.fetched = none) :
    reportXssDiagnostics now lca reports (docs1 ++ f :: docs2) =
      reportXssDiagnostics now lca reports (docs1 ++ [f]) := by
  unfold reportXssDiagnostics
  rw [runBatch_append_fail now lca f hf docs1 docs2]

/-- Witness for C4: a concrete batch with one document after the failure. -/
theorem claim_c4_batch_abort_witness :
    reportXssDiagnostics 0 [] []
        ([⟨"b", "b", some (["# CASE 1"], [])⟩] ++
          (⟨"a", "a", none⟩ : DocInput) ::
            [⟨"c", "c", some (["# CASE 1"], [])⟩]) =
      reportXssDiagnostics 0 [] []
        ([⟨"b", "b", some (["# CASE 1"], [])⟩] ++ [⟨"a", "a", none⟩]) :=
  claim_c4_batch_abort 0 [] [] [⟨"b", "b", some (["# CASE 1"], [])⟩]
    [⟨"c", "c", some (["# CASE 1"], [])⟩] ⟨"a", "a", none⟩ rfl

/-- C2 counterexample: markers written out of id order fingerprint in textual
order, so a document with the same ids and outcomes in a different textual
order produces a different key than its reordered twin. -/
theorem claim_c2_counterexample :
    reportKeyOf ["# CASE 2", "", "# CASE 1"] [] = "2:0|1:0" ∧
    reportKeyOf ["# CASE 1", "", "# CASE 2"] [] = "1:0|2:0" ∧
    ("2:0|1:0" : String) ≠ "1:0|2:0" := by decide

/-- C2 (corrected): the report fingerprint enumerates the cases in the order
their markers are discovered in the text, that is in ascending `startLine`
order, not sorted by id, and the render loop emits the case lines in the same
discovery order; documents whose markers carry equal ids and outcomes in
different textual orders need not fingerprint equally. -/
theorem claim_c2_discovery_order (now : Nat) (lca : List (String × Nat))
    (reports : List (String × String)) (uri base : String)
    (lines : List String) (raw : List Diagnostic)
    (hcs : extractCases lines ≠ [])
    (hkey : some (reportKeyOf lines (filterDiags raw)) ≠ mapGet reports uri) :
    reportKeyOf lines (filterDiags raw) =
      joinBar ((extractCases lines).map fun c =>
        natStr c.id ++ ":" ++
          (if caseHasIssue (filterDiags raw) c then "1" else "0")) ∧
    List.Chain' (fun a b => a.startLine < b.startLine) (extractCases lines) ∧
    (reportXssDiagnostics now lca reports [⟨uri, base, some (lines, raw)⟩]).2 =
      OutEvent.showOutput :: OutEvent.showTerminal ::
        caseEvents (extractCases lines) (filterDiags raw)
          (fmtElapsed (elapsedSpec now lca uri)) := by
  refine ⟨rfl, (extractCases_spec lines).2.2.2, ?_⟩
  rw [run_single_case_render now lca reports uri base lines raw hcs hkey]

/-- Witness for C2 at a concrete out-of-order document. -/
theorem claim_c2_discovery_order_witness :
    List.Chain' (fun a b => a.startLine < b.startLine)
      (extractCases ["# CASE 2", "", "# CASE 1"]) :=
  (claim_c2_discovery_order 0 [] [] "u" "f" ["# CASE 2", "", "# CASE 1"] []
    (by decide) (by decide)).2.1

/-- C3 counterexample: in flat mode with an empty filtered diagnostic set the
pass neither renders nor overwrites the stored key, although the new key
(the empty fingerprint) differs from the stored key `"x"`. -/
theorem claim_c3_counterexample :
    some (flatFingerprint (filterDiags [])) ≠ mapGet [("u", "x")] "u" ∧
    reportXssDiagnostics 0 [] [("u", "x")] [⟨"u", "f", some ([], [])⟩] =
      ([("u", "x")], []) := by decide

/-- C3 (corrected): equality of the newly computed fingerprint with the
stored `lastReportKey` gates output — equal suppresses the pass, different
renders and overwrites — except that in flat mode an empty filtered
diagnostic set short-circuits before the fingerprint check: nothing is
rendered and the stored key is not updated, whatever the stored key is. -/
theorem claim_c3_dedup_gate (now : Nat) (lca : List (String × Nat))
    (reports : List (String × String)) (uri base : String)
    (lines : List String) (raw : List Diagnostic) :
    (extractCases lines ≠ [] →
      (some (reportKeyOf lines (filterDiags raw)) = mapGet reports uri →
        reportXssDiagnostics now lca reports
            [⟨uri, base, some (lines, raw)⟩] = (reports, [])) ∧
      (some (reportKeyOf lines (filterDiags raw)) ≠ mapGet reports uri →
        mapGet (reportXssDiagnostics now lca reports
            [⟨uri, base, some (lines, raw)⟩]).1 uri =
          some (reportKeyOf lines (filterDiags raw)) ∧
        (reportXssDiagnostics now lca reports
            [⟨uri, base, some (lines, raw)⟩]).2 ≠ [])) ∧
    (extractCases lines = [] → filterDiags raw ≠ [] →
      (some (flatFingerprint (filterDiags raw)) = mapGet reports uri →
        reportXssDiagnostics now lca reports
            [⟨uri, base, some (lines, raw)⟩] = (reports, [])) ∧
      (some (flatFingerprint (filterDiags raw)) ≠ mapGet reports uri →
        mapGet (reportXssDiagnostics now lca reports
            [⟨uri, base, some (lines, raw)⟩]).1 uri =
          some (flatFingerprint (filterDiags raw)) ∧
        (reportXssDiagnostics now lca reports
            [⟨uri, base, some (lines, raw)⟩]).2 ≠ [])) ∧
    (extractCases lines = [] → filterDiags raw = [] →
      reportXssDiagnostics now lca reports
          [⟨uri, base, some (lines, raw)⟩] = (reports, [])) := by
  refine ⟨?_, ?_, ?_⟩
  · intro hcs
    constructor
    · intro hkey
      exact run_single_case_skip now lca reports uri base lines raw hcs hkey
    · intro hkey
      rw [run_single_case_render now lca reports uri base lines raw hcs hkey]
      exact ⟨mapGet_mapSet_self reports uri _, by simp⟩
  · intro hcs hd
    constructor
    · intro hkey
      exact run_single_flat_skip now lca reports uri base lines raw hcs hd hkey
    · intro hkey
      rw [run_single_flat_render now lca reports uri base lines raw hcs hd hkey]
      exact ⟨mapGet_mapSet_self reports uri _, by simp⟩
  · intro hcs hd
    exact run_single_flat_empty now lca reports uri base lines raw hcs hd

/-- Witness for C3 at a concrete one-case document with no stored key. -/
theorem claim_c3_dedup_gate_witness :
    mapGet (reportXssDiagnostics 5 [] []
        [⟨"u", "f", some (["# CASE 1"], [])⟩]).1 "u" =
      some (reportKeyOf ["# CASE 1"] (filterDiags [])) ∧
    (reportXssDiagnostics 5 [] []
        [⟨"u", "f", some (["# CASE 1"], [])⟩]).2 ≠ [] :=
  ((claim_c3_dedup_gate 5 [] [] "u" "f" ["# CASE 1"] []).1
    (by decide)).2 (by decide)

/-- C5 (confirmed): running the render pass a second time on the same
document with unchanged text and diagnostics produces no output on either
sink and leaves the stored per-document state unchanged, whatever the clock
or change-tracker state of the second pass. -/
theorem claim_c5_idempotent (now now2 : Nat) (lca lca2 : List (String × Nat))
    (reports : List (String × String)) (d : DocInput) :
    reportXssDiagnostics now2 lca2
        (reportXssDiagnostics now lca reports [d]).1 [d] =
      ((reportXssDiagnostics now lca reports [d]).1, []) := by
  obtain ⟨uri, base, fetched⟩ := d
  cases fetched with
  | none =>
    rw [run_single_fail now lca reports uri base]
    exact run_single_fail now2 lca2 reports uri base
  | some p =>
    obtain ⟨lines, raw⟩ := p
    by_cases hcs : extractCases lines = []
    · by_cases hd : filterDiags raw = []
      · rw [run_single_flat_empty now lca reports uri base lines raw hcs hd]
        exact run_single_flat_empty now2 lca2 reports uri base lines raw hcs hd
      · by_cases hkey :
            some (flatFingerprint (filterDiags raw)) = mapGet reports uri
        · rw [run_single_flat_skip now lca reports uri base lines raw
            hcs hd hkey]
          exact run_single_flat_skip now2 lca2 reports uri base lines raw
            hcs hd hkey
        · rw [run_single_flat_render now lca reports uri base lines raw
            hcs hd hkey]
          exact run_single_flat_skip now2 lca2
            (mapSet reports uri (flatFingerprint (filterDiags raw)))
            uri base lines raw hcs hd
            (mapGet_mapSet_self reports uri _).symm
    · by_cases hkey :
          some (reportKeyOf lines (filterDiags raw)) = mapGet reports uri
      · rw [run_single_case_skip now lca reports uri base lines raw hcs hkey]
        exact run_single_case_skip now2 lca2 reports uri base lines raw
          hcs hkey
      · rw [run_single_case_render now lca reports uri base lines raw
          hcs hkey]
        exact run_single_case_skip now2 lca2
          (mapSet reports uri (reportKeyOf lines (filterDiags raw)))
          uri base lines raw hcs
          (mapGet_mapSet_self reports uri _).symm

/-- Helper: both sink writes of a case are among the case-mode events. -/
theorem mem_caseEvents (cases : List Case) (diags : List Diagnostic)
    (fmt : String) (c : Case) (hc : c ∈ cases) :
    OutEvent.outputLine (caseLine c.id (caseHasIssue diags c) fmt) ∈
      caseEvents cases diags fmt ∧
    OutEvent.termWrite (caseLine c.id (caseHasIssue diags c) fmt ++ "\r\n") ∈
      caseEvents cases diags fmt := by
  unfold caseEvents
  constructor
  · exact List.mem_flatMap.mpr ⟨c, hc, by simp⟩
  · exact List.mem_flatMap.mpr ⟨c, hc, by simp⟩

/-- C1 counterexample: a case whose range contains a filtered diagnostic is
written with the success label `성공`, not with the failure label `실패`,
which goes to the diagnostic-free case of the same pass. -/
theorem claim_c1_counterexample :
    (reportXssDiagnostics 0 [] []
        [⟨"u", "f", some (["# CASE 1", "bad", "# CASE 2", "ok"],
          [⟨⟨⟨1, 2⟩, ⟨1, 5⟩⟩, "m", "xss-lsp"⟩])⟩]).2 =
      [OutEvent.showOutput, OutEvent.showTerminal,
       OutEvent.outputLine "### 1번 케이스 -> 성공 0.00s",
       OutEvent.termWrite "### 1번 케이스 -> 성공 0.00s\r\n",
       OutEvent.outputLine "### 2번 케이스 -> 실패 0.00s",
       OutEvent.termWrite "### 2번 케이스 -> 실패 0.00s\r\n"] ∧
    ("### 1번 케이스 -> 성공 0.00s" : String) ≠
      "### 1번 케이스 -> 실패 0.00s" := by decide

/-- C1 (corrected): in a case-mode render pass, every case whose range
contains at least one filtered diagnostic is written with the success label
`성공`, and every case whose range contains zero filtered diagnostics with
the failure label `실패`, on both sinks, for all cases of the pass. -/
theorem claim_c1_labels (now : Nat) (lca : List (String × Nat))
    (reports : List (String × String)) (uri base : String)
    (lines : List String) (raw : List Diagnostic)
    (hcs : extractCases lines ≠ [])
    (hkey : some (reportKeyOf lines (filterDiags raw)) ≠ mapGet reports uri) :
    statusLabel true = "성공" ∧ statusLabel false = "실패" ∧
    ∀ c ∈ extractCases lines,
      OutEvent.outputLine
          (caseLine c.id (caseHasIssue (filterDiags raw) c)
            (fmtElapsed (elapsedSpec now lca uri))) ∈
        (reportXssDiagnostics now lca reports
          [⟨uri, base, some (lines, raw)⟩]).2 ∧
      OutEvent.termWrite
          (caseLine c.id (caseHasIssue (filterDiags raw) c)
            (fmtElapsed (elapsedSpec now lca uri)) ++ "\r\n") ∈
        (reportXssDiagnostics now lca reports
          [⟨uri, base, some (lines, raw)⟩]).2 := by
  refine ⟨rfl, rfl, ?_⟩
  intro c hc
  rw [run_single_case_render now lca reports uri base lines raw hcs hkey]
  obtain ⟨h1, h2⟩ := mem_caseEvents (extractCases lines) (filterDiags raw)
    (fmtElapsed (elapsedSpec now lca uri)) c hc
  exact ⟨List.mem_cons_of_mem _ (List.mem_cons_of_mem _ h1),
    List.mem_cons_of_mem _ (List.mem_cons_of_mem _ h2)⟩

/-- Witness for C1: the success-labeled line of a concrete failing case is
among the pass output. -/
theorem claim_c1_labels_witness :
    OutEvent.outputLine
        (caseLine 1 (caseHasIssue (filterDiags
            [⟨⟨⟨1, 2⟩, ⟨1, 5⟩⟩, "m", "xss-lsp"⟩]) ⟨1, 0, 1⟩)
          (fmtElapsed (elapsedSpec 0 [] "u"))) ∈
      (reportXssDiagnostics 0 [] []
        [⟨"u", "f", some (["# CASE 1", "bad", "# CASE 2", "ok"],
          [⟨⟨⟨1, 2⟩, ⟨1, 5⟩⟩, "m", "xss-lsp"⟩])⟩]).2 :=
  ((claim_c1_labels 0 [] [] "u" "f" ["# CASE 1", "bad", "# CASE 2", "ok"]
      [⟨⟨⟨1, 2⟩, ⟨1, 5⟩⟩, "m", "xss-lsp"⟩] (by decide) (by decide)).2.2
    ⟨1, 0, 1⟩ (by decide)).1

/-- Helper for C9: a two-digit count below 100 renders with two characters. -/
theorem pad2_length : ∀ k, k < 100 → (pad2 k).length = 2 := by decide

/-- C9 (confirmed): in every case-mode render pass the reported elapsed value
is `fmtElapsed` of `max(0, now - lastChangeAt[doc])` milliseconds — that is,
that difference in seconds — computed once and shared by every case line of
the pass; it is `0` when no change was ever recorded for the document, and it
is rendered with exactly two decimal places. -/
theorem claim_c9_elapsed (now : Nat) (lca : List (String × Nat))
    (reports : List (String × String)) (uri base : String)
    (lines : List String) (raw : List Diagnostic)
    (hcs : extractCases lines ≠ [])
    (hkey : some (reportKeyOf lines (filterDiags raw)) ≠ mapGet reports uri) :
    (reportXssDiagnostics now lca reports [⟨uri, base, some (lines, raw)⟩]).2 =
      OutEvent.showOutput :: OutEvent.showTerminal ::
        caseEvents (extractCases lines) (filterDiags raw)
          (fmtElapsed (elapsedSpec now lca uri)) ∧
    (mapGet lca uri = none → elapsedSpec now lca uri = 0) ∧
    (∀ ms : Nat, ∃ whole frac : String,
      fmtElapsed ms = whole ++ "." ++ frac ∧ frac.length = 2) := by
  refine ⟨?_, ?_, ?_⟩
  · rw [run_single_case_render now lca reports uri base lines raw hcs hkey]
  · intro hnone
    simp [elapsedSpec, hnone]
  · intro ms
    refine ⟨natStr ((ms + 5) / 10 / 100), pad2 ((ms + 5) / 10 % 100),
      rfl, ?_⟩
    exact pad2_length _ (Nat.mod_lt _ (by norm_num))

/-- Witness for C9: never-recorded document reports zero elapsed, and
1500 ms renders as two decimals. -/
theorem claim_c9_elapsed_witness :
    elapsedSpec 7 [] "u" = 0 ∧
    ∃ whole frac : String,
      fmtElapsed 1500 = whole ++ "." ++ frac ∧ frac.length = 2 :=
  ⟨(claim_c9_elapsed 7 [] [] "u" "f" ["# CASE 1"] []
      (by decide) (by decide)).2.1 (by decide),
   (claim_c9_elapsed 7 [] [] "u" "f" ["# CASE 1"] []
      (by decide) (by decide)).2.2 1500⟩

/-- C7 counterexample: changing a single diagnostic's message with all
positions equal can leave the flat-mode fingerprint unchanged when messages
embed the separator and the position prefix of another entry. -/
theorem claim_c7_counterexample :
    (⟨⟨⟨0, 0⟩, ⟨0, 0⟩⟩, "a|0:0:0:0:", "xss-lsp"⟩ : Diagnostic).range =
      (⟨⟨⟨0, 0⟩, ⟨0, 0⟩⟩, "|0:0:0:0:a", "xss-lsp"⟩ : Diagnostic).range ∧
    (⟨⟨⟨0, 0⟩, ⟨0, 0⟩⟩, "a|0:0:0:0:", "xss-lsp"⟩ : Diagnostic).message ≠
      (⟨⟨⟨0, 0⟩, ⟨0, 0⟩⟩, "|0:0:0:0:a", "xss-lsp"⟩ : Diagnostic).message ∧
    flatFingerprint [⟨⟨⟨0, 0⟩, ⟨0, 0⟩⟩, "a|0:0:0:0:", "xss-lsp"⟩,
        ⟨⟨⟨0, 0⟩, ⟨0, 0⟩⟩, "a|0:0:0:0:|0:0:0:0:a", "xss-lsp"⟩] =
      flatFingerprint [⟨⟨⟨0, 0⟩, ⟨0, 0⟩⟩, "|0:0:0:0:a", "xss-lsp"⟩,
        ⟨⟨⟨0, 0⟩, ⟨0, 0⟩⟩, "a|0:0:0:0:|0:0:0:0:a", "xss-lsp"⟩] := by decide

/-- C7 (corrected): the flat-mode fingerprint is invariant under any
permutation of the host-supplied diagnostic list; and when no involved
message contains the separator character `|`, changing a single diagnostic's
message with all positions equal always changes the key (without that
proviso the key can collide, as the counterexample shows). -/
theorem claim_c7_fingerprint :
    (∀ l l2 : List Diagnostic, l.Perm l2 →
      flatFingerprint l = flatFingerprint l2) ∧
    (∀ (d d2 : Diagnostic) (N : List Diagnostic), d.range = d2.range →
      d.message ≠ d2.message → '|' ∉ d.message.data →
      '|' ∉ d2.message.data → (∀ x ∈ N, '|' ∉ x.message.data) →
      flatFingerprint (d :: N) ≠ flatFingerprint (d2 :: N)) := by
  constructor
  · intro l l2 h
    unfold flatFingerprint
    rw [sortStrings_eq_of_perm (h.map renderDiag)]
  · intro d d2 N hr hm hp1 hp2 hpN heq
    apply hm
    have heqJ : joinBar (sortStrings ((d :: N).map renderDiag)) =
        joinBar (sortStrings ((d2 :: N).map renderDiag)) := heq
    have hpf1 : ∀ s ∈ sortStrings ((d :: N).map renderDiag),
        '|' ∉ s.data := by
      intro s hs
      have hs2 := (sortStrings_perm ((d :: N).map renderDiag)).mem_iff.mp hs
      rcases List.mem_map.mp hs2 with ⟨x, hx, rfl⟩
      rcases List.mem_cons.mp hx with rfl | hx2
      · exact renderDiag_no_pipe x hp1
      · exact renderDiag_no_pipe x (hpN x hx2)
    have hpf2 : ∀ s ∈ sortStrings ((d2 :: N).map renderDiag),
        '|' ∉ s.data := by
      intro s hs
      have hs2 := (sortStrings_perm ((d2 :: N).map renderDiag)).mem_iff.mp hs
      rcases List.mem_map.mp hs2 with ⟨x, hx, rfl⟩
      rcases List.mem_cons.mp hx with rfl | hx2
      · exact renderDiag_no_pipe x hp2
      · exact renderDiag_no_pipe x (hpN x hx2)
    have hne1 : sortStrings ((d :: N).map renderDiag) ≠ [] := by
      intro h0
      have hl := (sortStrings_perm ((d :: N).map renderDiag)).length_eq
      rw [h0] at hl
      simp at hl
    have hne2 : sortStrings ((d2 :: N).map renderDiag) ≠ [] := by
      intro h0
      have hl := (sortStrings_perm ((d2 :: N).map renderDiag)).length_eq
      rw [h0] at hl
      simp at hl
    have heq2 := joinBar_inj _ _ hpf1 hpf2 hne1 hne2 heqJ
    have hperm : ((d :: N).map renderDiag).Perm ((d2 :: N).map renderDiag) := by
      have p1 := (sortStrings_perm ((d :: N).map renderDiag)).symm
      rw [heq2] at p1
      exact p1.trans (sortStrings_perm ((d2 :: N).map renderDiag))
    simp only [List.map_cons] at hperm
    have hcount := hperm.count_eq (renderDiag d)
    by_cases hrd : renderDiag d = renderDiag d2
    · exact renderDiag_message_eq hr hrd
    · exfalso
      have hrd2 : renderDiag d2 ≠ renderDiag d := fun e => hrd e.symm
      rw [List.count_cons, List.count_cons] at hcount
      simp [hrd2] at hcount

/-- Witness for C7: permutation invariance and message sensitivity at
concrete pipe-free diagnostics. -/
theorem claim_c7_fingerprint_witness :
    flatFingerprint [⟨⟨⟨0, 0⟩, ⟨0, 1⟩⟩, "m1", "xss-lsp"⟩,
        ⟨⟨⟨2, 0⟩, ⟨2, 1⟩⟩, "m2", "xss-lsp"⟩] =
      flatFingerprint [⟨⟨⟨2, 0⟩, ⟨2, 1⟩⟩, "m2", "xss-lsp"⟩,
        ⟨⟨⟨0, 0⟩, ⟨0, 1⟩⟩, "m1", "xss-lsp"⟩] ∧
    flatFingerprint [⟨⟨⟨0, 0⟩, ⟨0, 1⟩⟩, "m1", "xss-lsp"⟩] ≠
      flatFingerprint [⟨⟨⟨0, 0⟩, ⟨0, 1⟩⟩, "m2", "xss-lsp"⟩] :=
  ⟨claim_c7_fingerprint.1 _ _ (List.Perm.swap _ _ _),
   claim_c7_fingerprint.2 _ _ [] rfl (by decide) (by decide) (by decide)
     (by simp)⟩

/-- C8 counterexample: two passes whose observable output is identical (end
positions are not displayed) store different keys, so identical observable
output does not produce identical keys. -/
theorem claim_c8_counterexample :
    (reportXssDiagnostics 0 [] [] [⟨"u", "f", some (["line0"],
        [⟨⟨⟨0, 0⟩, ⟨0, 1⟩⟩, "m", "xss-lsp"⟩])⟩]).2 =
      (reportXssDiagnostics 0 [] [] [⟨"u", "f", some (["line0"],
        [⟨⟨⟨0, 0⟩, ⟨0, 2⟩⟩, "m", "xss-lsp"⟩])⟩]).2 ∧
    (reportXssDiagnostics 0 [] [] [⟨"u", "f", some (["line0"],
        [⟨⟨⟨0, 0⟩, ⟨0, 1⟩⟩, "m", "xss-lsp"⟩])⟩]).1 ≠
      (reportXssDiagnostics 0 [] [] [⟨"u", "f", some (["line0"],
        [⟨⟨⟨0, 0⟩, ⟨0, 2⟩⟩, "m", "xss-lsp"⟩])⟩]).1 := by decide

/-- C8 (corrected): the flat key is a function of the multiset of filtered
diagnostics — permuting the host-supplied list never changes it — but
identical observable output does not guarantee identical keys, because end
positions enter the key without being displayed. -/
theorem claim_c8_key_of_multiset (raw raw2 : List Diagnostic)
    (h : raw.Perm raw2) :
    flatFingerprint (filterDiags raw) =
      flatFingerprint (filterDiags raw2) := by
  unfold flatFingerprint filterDiags
  rw [sortStrings_eq_of_perm ((h.filter _).map renderDiag)]

/-- Witness for C8: permutation invariance through the source filter at a
concrete two-diagnostic list. -/
theorem claim_c8_key_of_multiset_witness :
    flatFingerprint (filterDiags [⟨⟨⟨0, 0⟩, ⟨0, 1⟩⟩, "m1", "xss-lsp"⟩,
        ⟨⟨⟨2, 0⟩, ⟨2, 1⟩⟩, "m2", "other"⟩]) =
      flatFingerprint (filterDiags [⟨⟨⟨2, 0⟩, ⟨2, 1⟩⟩, "m2", "other"⟩,
        ⟨⟨⟨0, 0⟩, ⟨0, 1⟩⟩, "m1", "xss-lsp"⟩]) :=
  claim_c8_key_of_multiset _ _ (List.Perm.swap _ _ _)
